import Mathlib

/-!
Verification of the sprint-detection and enrichment pipeline of
src/src/metrics.py against its specification.

The embedding works over exact rationals.  The upstream position-delta step
(eda.calculate_distances) produces irrational Euclidean norms, so the
embedding takes the per-frame distance sequence of a player track as its
input boundary: every claim under scrutiny quantifies over distance or
speed sequences, never over raw coordinates.  A track row is a pair of a
frame number and an optional per-frame distance, where `none` models a
pandas NaN (first frame of a track or a scrubbed artifact).
-/

namespace Traits

/-- A per-frame row of one player track: frame number paired with the
per-frame distance in metres (`none` models NaN). -/
abbrev Row := Nat × Option ℚ

/-! ## Generic list utilities mirroring the pandas primitives used -/

/-- Insert an element into a list sorted by `key` (insertion step of the
sort mirroring `sort_values`). -/
def insertByKey {α : Type} {β : Type} [LinearOrder β] (key : α → β) (x : α) :
    List α → List α
  | [] => [x]
  | y :: ys => if key x ≤ key y then x :: y :: ys else y :: insertByKey key x ys

/-- Sort a list by `key`, mirroring `DataFrame.sort_values`. -/
def sortByKey {α : Type} {β : Type} [LinearOrder β] (key : α → β)
    (l : List α) : List α :=
  l.foldr (insertByKey key) []

/-- Arithmetic mean of a list of rationals, mirroring `Series.mean` on the
non-missing values (the caller drops NaN first). -/
def listMean (l : List ℚ) : ℚ := l.sum / l.length

/-- `Series.mean` over a window: NaN (`none`) when no value is present,
which is exactly the `min_periods=1` behaviour of `rolling(...).mean()`. -/
def meanOpt (l : List ℚ) : Option ℚ :=
  if l.isEmpty then none else some (listMean l)

/-- `Series.median` over a window: sort the present values, take the middle
element (odd count) or the mean of the two middle elements (even count);
NaN (`none`) on an empty window, matching `min_periods=1`. -/
def medianOpt (l : List ℚ) : Option ℚ :=
  let s := sortByKey id l
  let n := s.length
  if n = 0 then none
  else if n % 2 = 1 then some (s.getD (n / 2) 0)
  else some ((s.getD (n / 2 - 1) 0 + s.getD (n / 2) 0) / 2)

/-- The non-missing values of the centered window of half-width `hw` around
index `i`, truncated at the sequence boundaries (pandas
`rolling(window=2*hw+1, center=True)` visits exactly these entries). -/
def windowVals (xs : List (Option ℚ)) (i hw : ℕ) : List ℚ :=
  ((xs.drop (i - hw)).take (i + hw + 1 - (i - hw))).filterMap id

/-- Centered rolling statistic with boundary shrinkage: one output per
input index, each computed by `f` on the window around that index. -/
def rollingApply (f : List ℚ → Option ℚ) (hw : ℕ)
    (xs : List (Option ℚ)) : List (Option ℚ) :=
  (List.range xs.length).map fun i => f (windowVals xs i hw)

/-! ## Signal conditioner (metrics.detect_sprints lines 49-70) -/

/-- Teleport rejection: `distances.mask(distances > 1.0, np.nan)` — a
per-frame distance strictly above 1.0 m becomes missing. -/
def scrubTeleport (d : Option ℚ) : Option ℚ :=
  d.bind fun x => if 1 < x then none else some x

/-- Speed conversion and cap: `distances * fps * 3.6` then
`clip(upper=32.0)`; NaN propagates. -/
def toSpeedKmh (fps : ℚ) (d : Option ℚ) : Option ℚ :=
  d.map fun x => min (x * fps * 3.6) 32

/-- The capped speed series derived from a distance series: teleport
scrubbing, conversion to km/h, 32 km/h ceiling. -/
def speedsOf (fps : ℚ) (dists : List (Option ℚ)) : List (Option ℚ) :=
  dists.map fun d => toSpeedKmh fps (scrubTeleport d)

/-- The smoothed speed curve used for sprint detection: capped speeds,
then a centered rolling median over 11 frames, then a centered rolling
mean over 7 frames (both with `min_periods=1`). -/
def conditionSpeeds (fps : ℚ) (dists : List (Option ℚ)) : List (Option ℚ) :=
  rollingApply meanOpt 3 (rollingApply medianOpt 5 (speedsOf fps dists))

/-! ## Sprint segmenter (metrics.detect_sprints lines 74-104) -/

/-- `is_sprinting = speed_smooth.fillna(0) >= threshold`: missing counts
as 0, never as sprinting. -/
def isSprintingRow (thr : ℚ) (r : Row) : Bool := decide (thr ≤ r.2.getD 0)

/-- Maximal runs of consecutive rows whose flag is true, in order: the
`sprint_group` cumulative-sum grouping restricted to the sprinting rows. -/
def sprintGroups {α : Type} (flag : α → Bool) : List α → List (List α)
  | [] => []
  | x :: xs =>
    if flag x then
      (x :: xs.takeWhile flag) :: sprintGroups flag (xs.dropWhile flag)
    else
      sprintGroups flag xs
termination_by l => l.length
decreasing_by
  all_goals simp only [List.length_cons]
  · have hdw : ∀ (l : List α), (l.dropWhile flag).length ≤ l.length := by
      intro l
      induction l with
      | nil => simp [List.dropWhile]
      | cons a t ih =>
        by_cases h : flag a <;> simp [List.dropWhile, h]
        omega
    exact Nat.lt_succ_of_le (hdw _)
  · exact Nat.lt_succ_self _

/-- Interval summary of a run candidate, the dict pushed onto
`sprints_list` before the match and player ids are attached. -/
structure Candidate where
  frame_start : ℕ
  frame_end : ℕ
  mid_frame : ℕ
  duration_s : ℚ
  avg_speed_kmh : ℚ
  max_speed_kmh : ℚ
  distance_m : ℚ
deriving DecidableEq, Repr

/-- Linear-interpolation quantile of an ascending list, the default
`Series.quantile` rule: position `q * (n - 1)`, value interpolated
between the two neighbouring order statistics. -/
def quantileSorted (q : ℚ) (s : List ℚ) : ℚ :=
  if s.isEmpty then 0
  else
    let pos : ℚ := q * ((s.length : ℚ) - 1)
    let k : ℕ := (⌊pos⌋).toNat
    let frac : ℚ := pos - (k : ℚ)
    let vk := s.getD k 0
    if k + 1 < s.length then vk + frac * (s.getD (k + 1) 0 - vk) else vk

/-- `Series.quantile(q)`: sort, then linear interpolation. -/
def quantile (q : ℚ) (l : List ℚ) : ℚ := quantileSorted q (sortByKey id l)

/-- Summary statistics of one sprint run (the loop body over
`sprint_groups`): skip runs shorter than 6 frames, skip runs with fewer
than 4 non-missing smoothed speeds, otherwise compute the interval
fields.  Validation is applied separately downstream. -/
def mkCandidate (fps : ℚ) (run : List Row) : Option Candidate :=
  if run.length < 6 then none
  else
    let frames := run.map Prod.fst
    let fs := frames.min?.getD 0
    let fe := frames.max?.getD 0
    let mid := (fs + fe) / 2
    let dur : ℚ := ((fe : ℚ) - (fs : ℚ) + 1) / fps
    let speeds := run.filterMap Prod.snd
    if speeds.length < 4 then none
    else
      let avg := listMean speeds
      let mx := quantile (9 / 10) speeds
      let dist := avg / 3.6 * dur
      some ⟨fs, fe, mid, dur, avg, mx, dist⟩

/-- Sprint validator (metrics.detect_sprints lines 109-114): the three
`continue` guards, a candidate passing none of them is kept. -/
def validateCandidate (c : Candidate) : Bool :=
  !(decide (c.avg_speed_kmh < 24.5) || decide ((29 : ℚ) < c.avg_speed_kmh)) &&
  !(decide (c.max_speed_kmh < 26) || decide ((33 : ℚ) < c.max_speed_kmh)) &&
  !(decide (c.distance_m < 7))

/-- Segmenter output for one smoothed track: candidates of all retained
runs, before validation. -/
def segmentCandidates (fps thr : ℚ) (rows : List Row) : List Candidate :=
  (sprintGroups (isSprintingRow thr) rows).filterMap (mkCandidate fps)

/-! ## Per-player pipeline and detect_sprints -/

/-- One player track: player id and its frame rows carrying the per-frame
distances computed upstream by eda.calculate_distances. -/
structure Track where
  player_id : ℕ
  rows : List Row
deriving DecidableEq

/-- The per-player loop body: tracks shorter than the 11-frame smoothing
window yield nothing; otherwise rows are frame-sorted (the defensive sort
of sort_values and calculate_distances), conditioned, and segmented. -/
def processTrack (fps thr : ℚ) (t : Track) : List Candidate :=
  if t.rows.length < 11 then []
  else
    let rows := sortByKey Prod.fst t.rows
    let speeds := conditionSpeeds fps (rows.map Prod.snd)
    segmentCandidates fps thr ((rows.map Prod.fst).zip speeds)

/-- A validated sprint record, one element of the returned dataframe. -/
structure Sprint where
  match_id : ℕ
  player_id : ℕ
  frame_start : ℕ
  frame_end : ℕ
  mid_frame : ℕ
  duration_s : ℚ
  distance_m : ℚ
  avg_sprint_speed_kmh : ℚ
  max_sprint_speed_kmh : ℚ
  sprint_id : ℕ
deriving DecidableEq

/-- Attach the match id, player id and sequential sprint id to an accepted
candidate. -/
def candidateToSprint (matchId pid sid : ℕ) (c : Candidate) : Sprint :=
  ⟨matchId, pid, c.frame_start, c.frame_end, c.mid_frame, c.duration_s,
    c.distance_m, c.avg_speed_kmh, c.max_speed_kmh, sid⟩

/-- metrics.detect_sprints: players processed in ascending player id (the
global sort on player_id and frame followed by unique), candidates
validated, and `sprint_id = range(len(sprints_list))` assigned over the
collected list. -/
def detectSprints (tracks : List Track) (matchId : ℕ) (fps thr : ℚ) :
    List Sprint :=
  let sorted := sortByKey Track.player_id tracks
  let cands := sorted.flatMap fun t =>
    ((processTrack fps thr t).filter validateCandidate).map fun c =>
      (t.player_id, c)
  cands.enum.map fun p => candidateToSprint matchId p.2.1 p.1 p.2.2

/-! ## Context enricher (metrics.enrich_sprints_with_phases) -/

/-- Modelled from the spec: the PhaseInterval rows are external data whose
schema is given only by section 3 of the specification — the repository
merely reads the csv.  Fields follow that schema verbatim. -/
structure PhaseInterval where
  match_id : ℕ
  frame_start : ℕ
  frame_end : ℕ
  team_in_possession_phase_type : Option String
  team_out_of_possession_phase_type : Option String
  team_in_possession_id : Option ℕ
  possession_lead_to_shot : Bool
  possession_lead_to_goal : Bool
  third_end : Option String
  channel_end : Option String
deriving DecidableEq

/-- A sprint record together with the joined phase fields and the derived
`is_high_value_phase` flag; the original sprint is carried unchanged as a
nested record (the source copies its dict and only adds new keys). -/
structure EnrichedSprint where
  sprint : Sprint
  team_in_possession_phase_type : Option String
  team_out_of_possession_phase_type : Option String
  team_in_possession_id : Option ℕ
  possession_lead_to_shot : Bool
  possession_lead_to_goal : Bool
  third_end : Option String
  channel_end : Option String
  is_high_value_phase : Bool
deriving DecidableEq

/-- The phase types counted as high value. -/
def highValuePhases : List String := ["create", "finish", "quick_break", "transition"]

/-- `phase_match`: the rows of the phases table, in table row order, whose
match id equals the sprint match id and whose frame range contains the
sprint mid frame. -/
def matchingPhases (phases : List PhaseInterval) (s : Sprint) :
    List PhaseInterval :=
  phases.filter fun p =>
    decide (p.match_id = s.match_id) && decide (p.frame_start ≤ s.mid_frame) &&
      decide (s.mid_frame ≤ p.frame_end)

/-- `isin` of the phase type against the high-value set; a missing phase
type is not a member, hence false. -/
def isHighValue (pt : Option String) : Bool :=
  (pt.map fun z => highValuePhases.contains z).getD false

/-- The loop body of enrich_sprints_with_phases for one sprint: with no
matching phase, null and false defaults; otherwise `phase_match.iloc[0]`
(the first matching row in table row order).  The source reads the shot
and goal flags as `phase.get` of the keys team_possession_lead_to_shot
and team_possession_lead_to_goal; the schema of section 3 has no such
columns, so the lookup yields the supplied default False in both cases.
The high-value flag is the vectorized `isin` computed after the loop. -/
def enrichOne (phases : List PhaseInterval) (s : Sprint) : EnrichedSprint :=
  match matchingPhases phases s with
  | [] =>
    { sprint := s
      team_in_possession_phase_type := none
      team_out_of_possession_phase_type := none
      team_in_possession_id := none
      possession_lead_to_shot := false
      possession_lead_to_goal := false
      third_end := none
      channel_end := none
      is_high_value_phase := isHighValue none }
  | p :: _ =>
    { sprint := s
      team_in_possession_phase_type := p.team_in_possession_phase_type
      team_out_of_possession_phase_type := p.team_out_of_possession_phase_type
      team_in_possession_id := p.team_in_possession_id
      possession_lead_to_shot := false
      possession_lead_to_goal := false
      third_end := p.third_end
      channel_end := p.channel_end
      is_high_value_phase := isHighValue p.team_in_possession_phase_type }

/-- metrics.enrich_sprints_with_phases: one enriched record per sprint,
in order. -/
def enrichSprintsWithPhases (sprints : List Sprint)
    (phases : List PhaseInterval) : List EnrichedSprint :=
  sprints.map (enrichOne phases)

/-! ## Context flags (metrics.add_sprint_context_flags) -/

/-- An enriched sprint after the external player-metadata join supplied
its team id, with the pass-2 flags. -/
structure FlaggedSprint where
  enriched : EnrichedSprint
  team_id : ℕ
  is_attacking_sprint : Bool
  is_defensive_sprint : Bool
  in_attacking_third : Bool
deriving DecidableEq

/-- The attacking-third zone label. -/
def attackingThird : String := "attacking_third"

/-- metrics.add_sprint_context_flags on one row.  A null
team_in_possession_id (a NaN in the joined frame) compares unequal to
every team id, so the equality is false; the same holds for a null
third_end against the zone label. -/
def addSprintContextFlags (e : EnrichedSprint) (teamId : ℕ) : FlaggedSprint :=
  let isAtt : Bool :=
    match e.team_in_possession_id with
    | some tid => decide (teamId = tid)
    | none => false
  { enriched := e
    team_id := teamId
    is_attacking_sprint := isAtt
    is_defensive_sprint := !isAtt
    in_attacking_third :=
      match e.third_end with
      | some z => decide (z = attackingThird)
      | none => false }

/-- A smoothed speed curve indexed by consecutive frame numbers from
`start`: the shape of the rows the segmenter receives for a gap-free
track stretch. -/
def mkRows (start : ℕ) : List (Option ℚ) → List Row
  | [] => []
  | v :: vs => (start, v) :: mkRows (start + 1) vs

/-! ## Fixtures used by witnesses and counterexamples -/

/-- Six frames held exactly at the 24.5 km/h threshold. -/
def midSix : List (Option ℚ) :=
  [some (49 / 2), some (49 / 2), some (49 / 2), some (49 / 2), some (49 / 2),
    some (49 / 2)]

/-- Two sub-threshold frames, one of them missing. -/
def preTwo : List (Option ℚ) := [some 0, none]

/-- One sub-threshold frame. -/
def postOne : List (Option ℚ) := [some 0]

/-- A sprint whose mid frame is 5, used as a concrete join input. -/
def sampleSprint : Sprint :=
  ⟨1, 7, 0, 10, 5, 11 / 10, 9, 26, 27, 0⟩

/-- A phase containing frame 5 whose possession led to a shot and a goal. -/
def shotPhase : PhaseInterval :=
  { match_id := 1
    frame_start := 0
    frame_end := 10
    team_in_possession_phase_type := none
    team_out_of_possession_phase_type := none
    team_in_possession_id := some 5
    possession_lead_to_shot := true
    possession_lead_to_goal := true
    third_end := none
    channel_end := none }

/-- A phase containing frame 5 starting at frame 4, possession team 77. -/
def phaseLater : PhaseInterval :=
  { match_id := 1
    frame_start := 4
    frame_end := 10
    team_in_possession_phase_type := none
    team_out_of_possession_phase_type := none
    team_in_possession_id := some 77
    possession_lead_to_shot := false
    possession_lead_to_goal := false
    third_end := none
    channel_end := none }

/-- A phase containing frame 5 starting at frame 2, possession team 88. -/
def phaseEarlier : PhaseInterval :=
  { match_id := 1
    frame_start := 2
    frame_end := 10
    team_in_possession_phase_type := none
    team_out_of_possession_phase_type := none
    team_in_possession_id := some 88
    possession_lead_to_shot := false
    possession_lead_to_goal := false
    third_end := none
    channel_end := none }

/-- A track of 14 frames at 0.75 m per frame, a steady 27 km/h. -/
def steadyRows : List Row := (List.range 14).map fun i => (i, some (3 / 4 : ℚ))

/-- A six-frame run at a constant 25 km/h smoothed speed. -/
def runSix : List Row :=
  [(0, some 25), (1, some 25), (2, some 25), (3, some 25), (4, some 25),
    (5, some 25)]

/-! ## C1 -/

/-- C1 counterexample: with two overlapping intervals both containing the
sprint mid frame, given in table order [frame_start 4, frame_start 2],
the join keeps the fields of the first table row, whose frame_start 4 is
not the lowest of the two. -/
theorem enrich_join_not_lowest_frame_start :
    matchingPhases [phaseLater, phaseEarlier] sampleSprint
        = [phaseLater, phaseEarlier] ∧
    phaseEarlier.frame_start < phaseLater.frame_start ∧
    (enrichOne [phaseLater, phaseEarlier] sampleSprint).team_in_possession_id
        = phaseLater.team_in_possession_id ∧
    phaseLater.team_in_possession_id ≠ phaseEarlier.team_in_possession_id := by
  decide

/-- C1 amended: the join deterministically keeps the first matching row in
the row order of the phases table; when that table is sorted ascending by
frame_start, the chosen interval has the lowest frame_start of every
matching interval. -/
theorem enrich_join_first_row_lowest_when_sorted
    (phases : List PhaseInterval) (s : Sprint)
    (p : PhaseInterval) (rest : List PhaseInterval)
    (h : matchingPhases phases s = p :: rest)
    (hsort : phases.Pairwise fun a b => a.frame_start ≤ b.frame_start) :
    (enrichOne phases s).team_in_possession_id = p.team_in_possession_id ∧
    (enrichOne phases s).team_in_possession_phase_type
        = p.team_in_possession_phase_type ∧
    (enrichOne phases s).third_end = p.third_end ∧
    ∀ q ∈ matchingPhases phases s, p.frame_start ≤ q.frame_start := by
  have hfil : (matchingPhases phases s).Pairwise
      fun a b => a.frame_start ≤ b.frame_start :=
    List.Pairwise.filter _ hsort
  rw [h] at hfil
  refine ⟨?_, ?_, ?_, ?_⟩
  · simp [enrichOne, h]
  · simp [enrichOne, h]
  · simp [enrichOne, h]
  · intro q hq
    rw [h] at hq
    rcases List.mem_cons.mp hq with rfl | hq
    · exact le_refl _
    · exact (List.pairwise_cons.mp hfil).1 q hq

theorem enrich_join_first_row_lowest_when_sorted_witness :
    (enrichOne [phaseEarlier, phaseLater] sampleSprint).team_in_possession_id
        = phaseEarlier.team_in_possession_id ∧
    (enrichOne [phaseEarlier, phaseLater] sampleSprint).team_in_possession_phase_type
        = phaseEarlier.team_in_possession_phase_type ∧
    (enrichOne [phaseEarlier, phaseLater] sampleSprint).third_end
        = phaseEarlier.third_end ∧
    ∀ q ∈ matchingPhases [phaseEarlier, phaseLater] sampleSprint,
      phaseEarlier.frame_start ≤ q.frame_start :=
  enrich_join_first_row_lowest_when_sorted
    [phaseEarlier, phaseLater] sampleSprint phaseEarlier [phaseLater]
    (by decide) (by decide)

/-! ## C2 -/

/-- C2: evaluating the join at a matching phase whose possession led to a
shot and a goal.  The sprint is matched (the possession id is copied from
the interval) yet both outcome flags come out false: the source reads the
keys team_possession_lead_to_shot and team_possession_lead_to_goal, which
the schema of section 3 does not contain, so the lookup always returns
its False default. -/
theorem enrich_shot_goal_flags_dropped :
    shotPhase.possession_lead_to_shot = true ∧
    shotPhase.possession_lead_to_goal = true ∧
    (enrichSprintsWithPhases [sampleSprint] [shotPhase]).map
        (fun e => e.team_in_possession_id) = [shotPhase.team_in_possession_id] ∧
    (enrichSprintsWithPhases [sampleSprint] [shotPhase]).map
        (fun e => (e.possession_lead_to_shot, e.possession_lead_to_goal))
      = [(false, false)] := by
  decide

/-! ## C3 -/

/-- C3: a candidate passes validation exactly when all three bounds hold
(24.5 to 29 average, 26 to 33 peak, at least 7 m); a candidate with a
30 km/h average is rejected; and every sprint the pipeline emits
satisfies the three bounds. -/
theorem validator_accepts_iff_bounds :
    (∀ c : Candidate, validateCandidate c = true ↔
      24.5 ≤ c.avg_speed_kmh ∧ c.avg_speed_kmh ≤ 29 ∧
        26 ≤ c.max_speed_kmh ∧ c.max_speed_kmh ≤ 33 ∧ 7 ≤ c.distance_m) ∧
    (∀ c : Candidate, c.avg_speed_kmh = 30 → validateCandidate c = false) ∧
    (∀ tracks matchId fps thr, ∀ s ∈ detectSprints tracks matchId fps thr,
      24.5 ≤ s.avg_sprint_speed_kmh ∧ s.avg_sprint_speed_kmh ≤ 29 ∧
        26 ≤ s.max_sprint_speed_kmh ∧ s.max_sprint_speed_kmh ≤ 33 ∧
        7 ≤ s.distance_m) := by
  have hiff : ∀ c : Candidate, validateCandidate c = true ↔
      24.5 ≤ c.avg_speed_kmh ∧ c.avg_speed_kmh ≤ 29 ∧
        26 ≤ c.max_speed_kmh ∧ c.max_speed_kmh ≤ 33 ∧ 7 ≤ c.distance_m := by
    intro c
    simp [validateCandidate, not_or, not_lt]
    tauto
  refine ⟨hiff, ?_, ?_⟩
  · intro c h
    rw [Bool.eq_false_iff]
    intro hv
    have := (hiff c).mp hv
    rw [h] at this
    norm_num at this
  · intro tracks matchId fps thr s hs
    simp only [detectSprints, List.mem_map] at hs
    obtain ⟨p, hp, rfl⟩ := hs
    have hsnd : p.2 ∈ (sortByKey Track.player_id tracks).flatMap fun t =>
        ((processTrack fps thr t).filter validateCandidate).map fun c =>
          (t.player_id, c) := by
      have := List.enum_map_snd ((sortByKey Track.player_id tracks).flatMap
        fun t => ((processTrack fps thr t).filter validateCandidate).map
          fun c => (t.player_id, c))
      rw [← this]
      exact List.mem_map_of_mem Prod.snd hp
    rw [List.mem_flatMap] at hsnd
    obtain ⟨t, _, hmem⟩ := hsnd
    rw [List.mem_map] at hmem
    obtain ⟨c, hc, hpc⟩ := hmem
    have hval : validateCandidate c = true := (List.mem_filter.mp hc).2
    have hb := (hiff c).mp hval
    have h2 : p.2.2 = c := by rw [← hpc]
    rw [h2]
    simpa [candidateToSprint] using hb

theorem validator_accepts_iff_bounds_witness :
    validateCandidate ⟨0, 13, 6, 7 / 5, 30, 27, 21 / 2⟩ = false :=
  validator_accepts_iff_bounds.2.1 ⟨0, 13, 6, 7 / 5, 30, 27, 21 / 2⟩ rfl

/-! ## C4 -/

theorem insertByKey_length {α β : Type} [LinearOrder β] (key : α → β) (x : α)
    (l : List α) : (insertByKey key x l).length = l.length + 1 := by
  induction l with
  | nil => rfl
  | cons y ys ih =>
    rw [insertByKey]
    split_ifs
    · rfl
    · simp [ih]

theorem sortByKey_length {α β : Type} [LinearOrder β] (key : α → β)
    (l : List α) : (sortByKey key l).length = l.length := by
  induction l with
  | nil => rfl
  | cons y ys ih =>
    simp [sortByKey] at ih ⊢
    rw [insertByKey_length, ih]

theorem rollingApply_length (f : List ℚ → Option ℚ) (hw : ℕ)
    (xs : List (Option ℚ)) : (rollingApply f hw xs).length = xs.length := by
  simp [rollingApply]

theorem filterMap_id_length_of_all_some (l : List (Option ℚ))
    (h : ∀ x ∈ l, x.isSome) : (l.filterMap id).length = l.length := by
  induction l with
  | nil => rfl
  | cons y ys ih =>
    have hy := h y (List.mem_cons_self y ys)
    obtain ⟨v, rfl⟩ := Option.isSome_iff_exists.mp hy
    simp only [List.filterMap_cons, id, List.length_cons]
    rw [ih fun x hx => h x (List.mem_cons_of_mem _ hx)]

theorem windowVals_length_pos (xs : List (Option ℚ)) (i hw : ℕ)
    (hi : i < xs.length) (hall : ∀ x ∈ xs, x.isSome) :
    0 < (windowVals xs i hw).length := by
  rw [windowVals, filterMap_id_length_of_all_some]
  · rw [List.length_take, List.length_drop]
    omega
  · intro x hx
    exact hall x (List.drop_subset _ _ (List.take_subset _ _ hx))

theorem medianOpt_isSome (l : List ℚ) (h : l ≠ []) :
    (medianOpt l).isSome = true := by
  have hlen : (sortByKey (id : ℚ → ℚ) l).length = l.length := sortByKey_length _ _
  have hne : l.length ≠ 0 := fun hc => h (List.length_eq_zero.mp hc)
  rw [medianOpt]
  simp only [hlen]
  split_ifs <;> simp_all

theorem meanOpt_isSome (l : List ℚ) (h : l ≠ []) :
    (meanOpt l).isSome = true := by
  rw [meanOpt, if_neg]
  · rfl
  · simpa using h

theorem rollingApply_all_some (f : List ℚ → Option ℚ)
    (hf : ∀ l, l ≠ [] → (f l).isSome = true) (hw : ℕ)
    (xs : List (Option ℚ)) (hall : ∀ x ∈ xs, x.isSome) :
    ∀ y ∈ rollingApply f hw xs, y.isSome = true := by
  intro y hy
  rw [rollingApply, List.mem_map] at hy
  obtain ⟨i, hi, rfl⟩ := hy
  rw [List.mem_range] at hi
  refine hf _ fun hc => ?_
  have := windowVals_length_pos xs i hw hi hall
  rw [hc] at this
  simp at this

theorem set_eq_self_of_getElem? {α : Type} {l : List α} {i : ℕ} {a : α}
    (h : l[i]? = some a) : l.set i a = l := by
  induction l generalizing i with
  | nil => simp at h
  | cons b t ih =>
    cases i with
    | zero => simp_all
    | succ j =>
      simp only [List.getElem?_cons_succ] at h
      simp [ih h]

/-- C4: the smoothed curve keeps one value per input frame (boundary
windows are never discarded); a per-frame distance above the 1.0 m
teleport threshold becomes missing in the capped speed series (never zero
and never the 32 km/h cap); scrubbing such a frame is indistinguishable
from that frame having been missing from the start, so missing inputs
are never treated as values; and on a track with no missing frame and no
teleport, every output frame — the shrunken boundary windows included —
still carries a value. -/
theorem conditioner_pipeline_properties (fps : ℚ) (dists : List (Option ℚ)) :
    (conditionSpeeds fps dists).length = dists.length ∧
    (∀ (i : ℕ) (x : ℚ), dists[i]? = some (some x) → 1 < x →
      (speedsOf fps dists)[i]? = some none) ∧
    (∀ (i : ℕ) (x : ℚ), dists[i]? = some (some x) → 1 < x →
      conditionSpeeds fps dists = conditionSpeeds fps (dists.set i none)) ∧
    ((∀ d ∈ dists, ∃ x, d = some x ∧ x ≤ 1) →
      ∀ i, i < dists.length →
        ((conditionSpeeds fps dists).getD i none).isSome = true) := by
  have hscrub : ∀ (i : ℕ) (x : ℚ), dists[i]? = some (some x) → 1 < x →
      (speedsOf fps dists)[i]? = some none := by
    intro i x h hx
    rw [speedsOf, List.getElem?_map, h]
    simp [scrubTeleport, toSpeedKmh, hx]
  refine ⟨?_, hscrub, ?_, ?_⟩
  · simp [conditionSpeeds, rollingApply_length, speedsOf]
  · intro i x h hx
    have hset : speedsOf fps (dists.set i none) = speedsOf fps dists := by
      rw [speedsOf, List.map_set]
      have : (toSpeedKmh fps (scrubTeleport none)) = none := rfl
      rw [this]
      exact set_eq_self_of_getElem? (hscrub i x h hx)
    rw [conditionSpeeds, conditionSpeeds, hset]
  · intro hall i hi
    have hsp : ∀ y ∈ speedsOf fps dists, y.isSome := by
      intro y hy
      rw [speedsOf, List.mem_map] at hy
      obtain ⟨d, hd, rfl⟩ := hy
      obtain ⟨x, rfl, hx⟩ := hall d hd
      simp [scrubTeleport, toSpeedKmh, not_lt.mpr hx]
    have hst1 : ∀ y ∈ rollingApply medianOpt 5 (speedsOf fps dists),
        y.isSome = true :=
      rollingApply_all_some medianOpt medianOpt_isSome 5 _ hsp
    have hst2 : ∀ y ∈ conditionSpeeds fps dists, y.isSome = true :=
      rollingApply_all_some meanOpt meanOpt_isSome 3 _ hst1
    have hlt : i < (conditionSpeeds fps dists).length := by
      simpa [conditionSpeeds, rollingApply_length, speedsOf] using hi
    rw [List.getD_eq_getElem?_getD, List.getElem?_eq_getElem hlt]
    exact hst2 _ (List.getElem_mem hlt)

theorem conditioner_pipeline_properties_witness :
    (speedsOf 10 [some 5, some (1 / 2)])[0]? = some none :=
  (conditioner_pipeline_properties 10 [some 5, some (1 / 2)]).2.1 0 5 rfl
    (by norm_num)

/-! ## C5 -/

/-- C5: every produced candidate has mid_frame the floor of the midpoint
of its frame bounds (natural division), duration (frame_end -
frame_start + 1) / fps, average the mean of the non-missing smoothed
speeds of the run, peak the linear-interpolation 90th percentile of those
speeds, and distance derived as average over 3.6 times duration; the
closing conjunct shows on a concrete list that this percentile sits
strictly below the true maximum. -/
theorem candidate_summary_fields (fps : ℚ) (run : List Row) (c : Candidate)
    (h : mkCandidate fps run = some c) :
    c.mid_frame = (c.frame_start + c.frame_end) / 2 ∧
    c.duration_s = ((c.frame_end : ℚ) - (c.frame_start : ℚ) + 1) / fps ∧
    c.avg_speed_kmh = listMean (run.filterMap Prod.snd) ∧
    c.max_speed_kmh = quantile (9 / 10) (run.filterMap Prod.snd) ∧
    c.distance_m = c.avg_speed_kmh / 3.6 * c.duration_s ∧
    quantile (9 / 10) [20, 21, 22, 23, 30] < 30 := by
  simp only [mkCandidate] at h
  split_ifs at h
  simp only [Option.some.injEq] at h
  subst h
  refine ⟨rfl, rfl, rfl, rfl, rfl, ?_⟩
  norm_num [quantile, quantileSorted, sortByKey, insertByKey,
    show ((3 : ℤ)).toNat = 3 from rfl]

theorem candidate_summary_fields_witness :
    Candidate.mid_frame ⟨0, 5, 2, 3 / 5, 25, 25, 25 / 6⟩ =
      (Candidate.frame_start ⟨0, 5, 2, 3 / 5, 25, 25, 25 / 6⟩ +
        Candidate.frame_end ⟨0, 5, 2, 3 / 5, 25, 25, 25 / 6⟩) / 2 :=
  (candidate_summary_fields 10 runSix ⟨0, 5, 2, 3 / 5, 25, 25, 25 / 6⟩ (by
    have hspeeds : runSix.filterMap Prod.snd = [25, 25, 25, 25, 25, 25] := rfl
    have hsort : sortByKey (id : ℚ → ℚ) [25, 25, 25, 25, 25, 25]
        = [25, 25, 25, 25, 25, 25] := by
      simp [sortByKey, insertByKey]
    have hfrom : ((runSix.map Prod.fst).min?).getD 0 = 0 := rfl
    have hto : ((runSix.map Prod.fst).max?).getD 0 = 5 := rfl
    rw [mkCandidate]
    rw [if_neg (by simp [runSix])]
    simp only [hspeeds, hfrom, hto]
    rw [if_neg (by simp)]
    norm_num [listMean, quantile, quantileSorted, hsort,
      show ((4 : ℤ)).toNat = 4 from rfl])).1

/-! ## C6 -/

theorem mkRows_append (a b : List (Option ℚ)) : ∀ s : ℕ,
    mkRows s (a ++ b) = mkRows s a ++ mkRows (s + a.length) b := by
  induction a with
  | nil => intro s; simp [mkRows]
  | cons v vs ih =>
    intro s
    have harith : s + (v :: vs).length = s + 1 + vs.length := by
      simp only [List.length_cons]
      omega
    calc mkRows s ((v :: vs) ++ b)
        = (s, v) :: mkRows (s + 1) (vs ++ b) := rfl
      _ = (s, v) :: (mkRows (s + 1) vs ++ mkRows (s + 1 + vs.length) b) := by
          rw [ih (s + 1)]
      _ = mkRows s (v :: vs) ++ mkRows (s + (v :: vs).length) b := by
          rw [harith]
          rfl

theorem mkRows_length (c : List (Option ℚ)) : ∀ s : ℕ,
    (mkRows s c).length = c.length := by
  induction c with
  | nil => intro s; rfl
  | cons v vs ih => intro s; simp [mkRows, ih]

theorem mkRows_map_fst (c : List (Option ℚ)) : ∀ s : ℕ,
    (mkRows s c).map Prod.fst = List.range' s c.length := by
  induction c with
  | nil => intro s; rfl
  | cons v vs ih => intro s; simp [mkRows, ih, List.range'_succ]

theorem mkRows_snd_mem {r : Row} (c : List (Option ℚ)) : ∀ s : ℕ,
    r ∈ mkRows s c → r.2 ∈ c := by
  induction c with
  | nil => intro s h; simp [mkRows] at h
  | cons v vs ih =>
    intro s h
    rw [mkRows, List.mem_cons] at h
    rcases h with rfl | h
    · simp
    · exact List.mem_cons_of_mem _ (ih (s + 1) h)

theorem mkRows_filterMap_snd (c : List (Option ℚ)) : ∀ s : ℕ,
    (mkRows s c).filterMap Prod.snd = c.filterMap id := by
  induction c with
  | nil => intro s; rfl
  | cons v vs ih =>
    intro s
    cases v <;> simp [mkRows, List.filterMap_cons, ih]

theorem range'_min? (n : ℕ) : ∀ s : ℕ, (List.range' s (n + 1)).min? = some s := by
  induction n with
  | zero => intro s; rfl
  | succ m ih =>
    intro s
    rw [List.range'_succ, List.min?_cons, ih (s + 1)]
    simp only [Option.elim, Option.some.injEq]
    omega

theorem range'_max? (n : ℕ) : ∀ s : ℕ,
    (List.range' s (n + 1)).max? = some (s + n) := by
  induction n with
  | zero => intro s; rfl
  | succ m ih =>
    intro s
    rw [List.range'_succ, List.max?_cons, ih (s + 1)]
    simp only [Option.elim, Option.some.injEq]
    omega

theorem takeWhile_append_all_true {α : Type} (flag : α → Bool) (a b : List α)
    (h : ∀ x ∈ a, flag x = true) :
    (a ++ b).takeWhile flag = a ++ b.takeWhile flag := by
  induction a with
  | nil => simp
  | cons x xs ih =>
    simp only [List.cons_append, List.takeWhile_cons,
      h x (List.mem_cons_self x xs)]
    simp [ih fun y hy => h y (List.mem_cons_of_mem _ hy)]

theorem dropWhile_append_all_true {α : Type} (flag : α → Bool) (a b : List α)
    (h : ∀ x ∈ a, flag x = true) :
    (a ++ b).dropWhile flag = b.dropWhile flag := by
  induction a with
  | nil => simp
  | cons x xs ih =>
    simp only [List.cons_append, List.dropWhile_cons,
      h x (List.mem_cons_self x xs)]
    simp [ih fun y hy => h y (List.mem_cons_of_mem _ hy)]

theorem takeWhile_all_false {α : Type} (flag : α → Bool) (b : List α)
    (h : ∀ x ∈ b, flag x = false) : b.takeWhile flag = [] := by
  cases b with
  | nil => rfl
  | cons x xs => simp [List.takeWhile_cons, h x (List.mem_cons_self x xs)]

theorem dropWhile_all_false {α : Type} (flag : α → Bool) (b : List α)
    (h : ∀ x ∈ b, flag x = false) : b.dropWhile flag = b := by
  cases b with
  | nil => rfl
  | cons x xs => simp [List.dropWhile_cons, h x (List.mem_cons_self x xs)]

theorem sprintGroups_all_false {α : Type} (flag : α → Bool) (l : List α)
    (h : ∀ x ∈ l, flag x = false) : sprintGroups flag l = [] := by
  induction l with
  | nil => simp [sprintGroups]
  | cons x xs ih =>
    rw [sprintGroups, if_neg (by simp [h x (List.mem_cons_self x xs)])]
    exact ih fun y hy => h y (List.mem_cons_of_mem _ hy)

theorem sprintGroups_prefix_false {α : Type} (flag : α → Bool) (a l : List α)
    (h : ∀ x ∈ a, flag x = false) :
    sprintGroups flag (a ++ l) = sprintGroups flag l := by
  induction a with
  | nil => rfl
  | cons x xs ih =>
    rw [List.cons_append, sprintGroups,
      if_neg (by simp [h x (List.mem_cons_self x xs)])]
    exact ih fun y hy => h y (List.mem_cons_of_mem _ hy)

theorem sprintGroups_true_block {α : Type} (flag : α → Bool) (a b : List α)
    (ha : a ≠ []) (hat : ∀ x ∈ a, flag x = true)
    (hbf : ∀ x ∈ b, flag x = false) :
    sprintGroups flag (a ++ b) = [a] := by
  cases a with
  | nil => exact absurd rfl ha
  | cons x xs =>
    rw [List.cons_append, sprintGroups,
      if_pos (hat x (List.mem_cons_self x xs))]
    rw [takeWhile_append_all_true flag xs b
        fun y hy => hat y (List.mem_cons_of_mem _ hy),
      takeWhile_all_false flag b hbf,
      dropWhile_append_all_true flag xs b
        fun y hy => hat y (List.mem_cons_of_mem _ hy),
      dropWhile_all_false flag b hbf,
      sprintGroups_all_false flag b hbf]
    simp

/-- C6: feeding the segmenter a smoothed curve that meets the 24.5 km/h
threshold on exactly six consecutive frames and sits below it (or is
missing, which counts as 0) everywhere else yields exactly one candidate,
with duration 0.6 s at 10 fps; with only five such frames the run is
discarded before validation and no candidate is produced. -/
theorem threshold_boundary_six_frames (start : ℕ)
    (pre mid post : List (Option ℚ))
    (hpre : ∀ x ∈ pre, x.getD 0 < 24.5)
    (hpost : ∀ x ∈ post, x.getD 0 < 24.5)
    (hmid : ∀ x ∈ mid, (24.5 : ℚ) ≤ x.getD 0) :
    (mid.length = 6 →
      ∃ c, segmentCandidates 10 24.5 (mkRows start (pre ++ mid ++ post))
          = [c] ∧ c.duration_s = 3 / 5) ∧
    (mid.length = 5 →
      segmentCandidates 10 24.5 (mkRows start (pre ++ mid ++ post)) = []) := by
  have hsplit : mkRows start (pre ++ mid ++ post)
      = mkRows start pre ++ (mkRows (start + pre.length) mid ++
          mkRows (start + pre.length + mid.length) post) := by
    rw [List.append_assoc, mkRows_append, mkRows_append]
  have hfpre : ∀ x ∈ mkRows start pre, isSprintingRow 24.5 x = false := by
    intro x hx
    have h2 := mkRows_snd_mem pre start hx
    simp only [isSprintingRow, decide_eq_false_iff_not, not_le]
    exact hpre _ h2
  have hfpost : ∀ x ∈ mkRows (start + pre.length + mid.length) post,
      isSprintingRow 24.5 x = false := by
    intro x hx
    have h2 := mkRows_snd_mem post _ hx
    simp only [isSprintingRow, decide_eq_false_iff_not, not_le]
    exact hpost _ h2
  have hfmid : ∀ x ∈ mkRows (start + pre.length) mid,
      isSprintingRow 24.5 x = true := by
    intro x hx
    have h2 := mkRows_snd_mem mid _ hx
    simp only [isSprintingRow, decide_eq_true_eq]
    exact hmid _ h2
  have hgroups : mid ≠ [] →
      sprintGroups (isSprintingRow 24.5) (mkRows start (pre ++ mid ++ post))
        = [mkRows (start + pre.length) mid] := by
    intro hne
    rw [hsplit, sprintGroups_prefix_false _ _ _ hfpre]
    refine sprintGroups_true_block _ _ _ ?_ hfmid hfpost
    intro hc
    apply hne
    have := congrArg List.length hc
    rw [mkRows_length] at this
    exact List.length_eq_zero.mp this
  constructor
  · intro h6
    have hne : mid ≠ [] := by
      intro hc
      rw [hc] at h6
      simp at h6
    rw [segmentCandidates, hgroups hne]
    have hlen : (mkRows (start + pre.length) mid).length = 6 := by
      rw [mkRows_length]
      exact h6
    have hfst : (mkRows (start + pre.length) mid).map Prod.fst
        = List.range' (start + pre.length) 6 := by
      rw [mkRows_map_fst, h6]
    have hmin : ((mkRows (start + pre.length) mid).map Prod.fst).min?.getD 0
        = start + pre.length := by
      rw [hfst,
        show List.range' (start + pre.length) 6
          = List.range' (start + pre.length) (5 + 1) from rfl,
        range'_min?]
      rfl
    have hmax : ((mkRows (start + pre.length) mid).map Prod.fst).max?.getD 0
        = start + pre.length + 5 := by
      rw [hfst,
        show List.range' (start + pre.length) 6
          = List.range' (start + pre.length) (5 + 1) from rfl,
        range'_max?]
      rfl
    have hall : ∀ x ∈ mid, x.isSome := by
      intro x hx
      cases x with
      | none =>
        have := hmid none hx
        norm_num at this
      | some v => rfl
    have hsnd : (mkRows (start + pre.length) mid).filterMap Prod.snd
        = mid.filterMap id := mkRows_filterMap_snd mid _
    have hslen : (mid.filterMap id).length = 6 := by
      rw [filterMap_id_length_of_all_some mid hall, h6]
    have hdur : (((start + pre.length + 5 : ℕ) : ℚ)
        - ((start + pre.length : ℕ) : ℚ) + 1) / 10 = 3 / 5 := by
      push_cast
      ring_nf
    have hmk : mkCandidate 10 (mkRows (start + pre.length) mid)
        = some ⟨start + pre.length, start + pre.length + 5,
            (start + pre.length + (start + pre.length + 5)) / 2, 3 / 5,
            listMean (mid.filterMap id), quantile (9 / 10) (mid.filterMap id),
            listMean (mid.filterMap id) / 3.6 * (3 / 5)⟩ := by
      rw [mkCandidate, if_neg (by rw [hlen]; norm_num)]
      simp only [hmin, hmax, hsnd, hdur, hslen]
      rw [if_neg (by norm_num)]
    refine ⟨⟨start + pre.length, start + pre.length + 5,
        (start + pre.length + (start + pre.length + 5)) / 2, 3 / 5,
        listMean (mid.filterMap id), quantile (9 / 10) (mid.filterMap id),
        listMean (mid.filterMap id) / 3.6 * (3 / 5)⟩, ?_, rfl⟩
    simp [List.filterMap_cons, hmk]
  · intro h5
    have hne : mid ≠ [] := by
      intro hc
      rw [hc] at h5
      simp at h5
    rw [segmentCandidates, hgroups hne]
    have hlen : (mkRows (start + pre.length) mid).length = 5 := by
      rw [mkRows_length]
      exact h5
    have hmk : mkCandidate 10 (mkRows (start + pre.length) mid) = none := by
      rw [mkCandidate, if_pos (by rw [hlen]; norm_num)]
    simp [List.filterMap_cons, hmk]

theorem threshold_boundary_six_frames_witness :
    ∃ c, segmentCandidates 10 24.5 (mkRows 0 (preTwo ++ midSix ++ postOne))
        = [c] ∧ c.duration_s = 3 / 5 :=
  (threshold_boundary_six_frames 0 preTwo midSix postOne
    (by norm_num [preTwo]) (by norm_num [postOne]) (by norm_num [midSix])).1 rfl

/-! ## C7 -/

theorem dropWhile_length_le {α : Type} (p : α → Bool) (l : List α) :
    (l.dropWhile p).length ≤ l.length := by
  induction l with
  | nil => simp [List.dropWhile]
  | cons a t ih =>
    by_cases h : p a <;> simp [List.dropWhile, h]
    omega

theorem insertByKey_perm {α β : Type} [LinearOrder β] (key : α → β) (x : α)
    (l : List α) : (insertByKey key x l).Perm (x :: l) := by
  induction l with
  | nil => exact List.Perm.refl _
  | cons y ys ih =>
    rw [insertByKey]
    split_ifs
    · exact List.Perm.refl _
    · exact (ih.cons y).trans (List.Perm.swap x y ys)

theorem sortByKey_perm {α β : Type} [LinearOrder β] (key : α → β)
    (l : List α) : (sortByKey key l).Perm l := by
  induction l with
  | nil => exact List.Perm.refl _
  | cons y ys ih =>
    exact (insertByKey_perm key y (sortByKey key ys)).trans (ih.cons y)

theorem insertByKey_sorted {α β : Type} [LinearOrder β] (key : α → β) (x : α)
    (l : List α) (h : l.Pairwise fun a b => key a ≤ key b) :
    (insertByKey key x l).Pairwise fun a b => key a ≤ key b := by
  induction l with
  | nil => simp [insertByKey]
  | cons y ys ih =>
    rw [insertByKey]
    rw [List.pairwise_cons] at h
    split_ifs with hxy
    · refine List.pairwise_cons.mpr ⟨?_, List.pairwise_cons.mpr h⟩
      intro z hz
      rcases List.mem_cons.mp hz with rfl | hz
      · exact hxy
      · exact le_trans hxy (h.1 z hz)
    · refine List.pairwise_cons.mpr ⟨?_, ih h.2⟩
      intro z hz
      have hmem := (insertByKey_perm key x ys).mem_iff.mp hz
      rcases List.mem_cons.mp hmem with rfl | hz2
      · exact le_of_lt (not_le.mp hxy)
      · exact h.1 z hz2

theorem sortByKey_sorted {α β : Type} [LinearOrder β] (key : α → β)
    (l : List α) : (sortByKey key l).Pairwise fun a b => key a ≤ key b := by
  induction l with
  | nil => simp [sortByKey]
  | cons y ys ih => exact insertByKey_sorted key y _ ih

theorem filter_split {α : Type} (p : α → Bool) (l : List α) :
    l.filter p = l.takeWhile p ++ (l.dropWhile p).filter p := by
  conv_lhs => rw [← List.takeWhile_append_dropWhile p l]
  rw [List.filter_append,
    List.filter_eq_self.mpr fun a ha => List.mem_takeWhile_imp ha]

theorem sprintGroups_flatten_aux {α : Type} (flag : α → Bool) :
    ∀ (n : ℕ) (l : List α), l.length ≤ n →
      (sprintGroups flag l).flatten = l.filter flag := by
  intro n
  induction n with
  | zero =>
    intro l hl
    cases l with
    | nil => simp [sprintGroups]
    | cons x xs => simp at hl
  | succ m ih =>
    intro l hl
    cases l with
    | nil => simp [sprintGroups]
    | cons x xs =>
      rw [sprintGroups]
      by_cases hx : flag x
      · rw [if_pos hx, List.flatten_cons,
          ih (xs.dropWhile flag)
            (le_trans (dropWhile_length_le flag xs) (by simpa using hl)),
          List.filter_cons_of_pos hx, filter_split flag xs]
        simp
      · rw [if_neg hx, ih xs (by simpa using hl),
          List.filter_cons_of_neg hx]

theorem sprintGroups_flatten {α : Type} (flag : α → Bool) (l : List α) :
    (sprintGroups flag l).flatten = l.filter flag :=
  sprintGroups_flatten_aux flag l.length l (le_refl _)

theorem pairwise_filterMap_of_pairwise {α β : Type} {R : α → α → Prop}
    {S : β → β → Prop} (f : α → Option β) {l : List α}
    (h : l.Pairwise R)
    (hf : ∀ a b c d, R a b → f a = some c → f b = some d → S c d) :
    (l.filterMap f).Pairwise S := by
  induction l with
  | nil => simp
  | cons x xs ih =>
    rw [List.pairwise_cons] at h
    rw [List.filterMap_cons]
    cases hfx : f x with
    | none => exact ih h.2
    | some c =>
      refine List.pairwise_cons.mpr ⟨?_, ih h.2⟩
      intro d hd
      rw [List.mem_filterMap] at hd
      obtain ⟨b, hb, hfb⟩ := hd
      exact hf x b c d (h.1 b hb) hfx hfb

theorem mkCandidate_frame_start_mem (fps : ℚ) (run : List Row) (c : Candidate)
    (h : mkCandidate fps run = some c) : c.frame_start ∈ run.map Prod.fst := by
  simp only [mkCandidate] at h
  split_ifs at h with h1 h2
  simp only [Option.some.injEq] at h
  subst h
  have hne : run.map Prod.fst ≠ [] := by
    intro hc
    have h0 : (run.map Prod.fst).length = 0 := by rw [hc]; rfl
    rw [List.length_map] at h0
    omega
  obtain ⟨a, ha⟩ : ∃ a, (run.map Prod.fst).min? = some a := by
    cases hm : (run.map Prod.fst).min? with
    | none => exact absurd (List.min?_eq_none_iff.mp hm) hne
    | some a => exact ⟨a, rfl⟩
  simp only [ha, Option.getD_some]
  exact List.min?_mem min_choice ha

theorem processTrack_pairwise (fps thr : ℚ) (t : Track)
    (hnd : (t.rows.map Prod.fst).Nodup) :
    (processTrack fps thr t).Pairwise
      fun c1 c2 => c1.frame_start < c2.frame_start := by
  rw [processTrack]
  split_ifs
  · simp
  · have hperm : (sortByKey Prod.fst t.rows).Perm t.rows := sortByKey_perm _ _
    have hsorted : (sortByKey Prod.fst t.rows).Pairwise
        fun a b : Row => a.1 ≤ b.1 := sortByKey_sorted Prod.fst t.rows
    have hnd2 : ((sortByKey Prod.fst t.rows).map Prod.fst).Nodup :=
      (hperm.map Prod.fst).nodup_iff.mpr hnd
    have hstrict : (sortByKey Prod.fst t.rows).Pairwise
        fun a b : Row => a.1 < b.1 := by
      have hne : (sortByKey Prod.fst t.rows).Pairwise
          fun a b : Row => a.1 ≠ b.1 := List.pairwise_map.mp hnd2
      exact (hsorted.and hne).imp fun h => lt_of_le_of_ne h.1 h.2
    have hlensp :
        (conditionSpeeds fps ((sortByKey Prod.fst t.rows).map Prod.snd)).length
          = (sortByKey Prod.fst t.rows).length := by
      simp [conditionSpeeds, rollingApply_length, speedsOf]
    have hzipfst : (((sortByKey Prod.fst t.rows).map Prod.fst).zip
          (conditionSpeeds fps ((sortByKey Prod.fst t.rows).map Prod.snd))).map
            Prod.fst
        = (sortByKey Prod.fst t.rows).map Prod.fst :=
      List.map_fst_zip _ _ (by simp [hlensp])
    have hzp : (((sortByKey Prod.fst t.rows).map Prod.fst).zip
          (conditionSpeeds fps ((sortByKey Prod.fst t.rows).map Prod.snd))).Pairwise
            fun a b => a.1 < b.1 := by
      refine List.pairwise_map.mp ?_
      rw [hzipfst]
      exact List.pairwise_map.mpr hstrict
    rw [segmentCandidates]
    have hfl : (sprintGroups (isSprintingRow thr)
        (((sortByKey Prod.fst t.rows).map Prod.fst).zip
          (conditionSpeeds fps
            ((sortByKey Prod.fst t.rows).map Prod.snd)))).flatten.Pairwise
        fun a b : Row => a.1 < b.1 := by
      rw [sprintGroups_flatten]
      exact hzp.filter _
    have hparts := List.pairwise_flatten.mp hfl
    refine pairwise_filterMap_of_pairwise (mkCandidate fps) hparts.2 ?_
    intro g1 g2 c1 c2 hcross h1 h2
    have m1 := mkCandidate_frame_start_mem fps g1 c1 h1
    have m2 := mkCandidate_frame_start_mem fps g2 c2 h2
    rw [List.mem_map] at m1 m2
    obtain ⟨r1, hr1, e1⟩ := m1
    obtain ⟨r2, hr2, e2⟩ := m2
    rw [← e1, ← e2]
    exact hcross r1 hr1 r2 hr2

/-- C7: the sprint ids of a match are exactly 0, 1, ..., n-1 in output
order, and the output rows are sorted by player id, then by frame_start
within a player (strictly, when player ids are distinct and the frame
numbers within each track are distinct), so the assignment is the
deterministic player-then-frame iteration order. -/
theorem sprint_ids_sequential_and_ordered (tracks : List Track)
    (matchId : ℕ) (fps thr : ℚ)
    (hpid : (tracks.map Track.player_id).Nodup)
    (hframes : ∀ t ∈ tracks, (t.rows.map Prod.fst).Nodup) :
    ((detectSprints tracks matchId fps thr).map Sprint.sprint_id
      = List.range (detectSprints tracks matchId fps thr).length) ∧
    (detectSprints tracks matchId fps thr).Pairwise fun a b =>
      a.player_id < b.player_id ∨
        (a.player_id = b.player_id ∧ a.frame_start < b.frame_start) := by
  have hdet : detectSprints tracks matchId fps thr
      = ((sortByKey Track.player_id tracks).flatMap fun t =>
          ((processTrack fps thr t).filter validateCandidate).map fun c =>
            (t.player_id, c)).enum.map
        fun p => candidateToSprint matchId p.2.1 p.1 p.2.2 := rfl
  constructor
  · rw [hdet, List.map_map]
    have hcomp : (Sprint.sprint_id ∘ fun p : ℕ × (ℕ × Candidate) =>
        candidateToSprint matchId p.2.1 p.1 p.2.2) = Prod.fst := rfl
    rw [hcomp, List.enum_map_fst, List.length_map, List.enum_length]
  · have hsorted : (sortByKey Track.player_id tracks).Pairwise
        fun a b => a.player_id ≤ b.player_id := sortByKey_sorted _ _
    have hnd : ((sortByKey Track.player_id tracks).map Track.player_id).Nodup :=
      ((sortByKey_perm Track.player_id tracks).map _).nodup_iff.mpr hpid
    have hstrict : (sortByKey Track.player_id tracks).Pairwise
        fun a b => a.player_id < b.player_id := by
      have hne : (sortByKey Track.player_id tracks).Pairwise
          fun a b => a.player_id ≠ b.player_id := List.pairwise_map.mp hnd
      exact (hsorted.and hne).imp fun h => lt_of_le_of_ne h.1 h.2
    have hp : ((sortByKey Track.player_id tracks).flatMap fun t =>
        ((processTrack fps thr t).filter validateCandidate).map fun c =>
          (t.player_id, c)).Pairwise
        fun a b : ℕ × Candidate =>
          a.1 < b.1 ∨ (a.1 = b.1 ∧ a.2.frame_start < b.2.frame_start) := by
      rw [show ((sortByKey Track.player_id tracks).flatMap fun t =>
          ((processTrack fps thr t).filter validateCandidate).map fun c =>
            (t.player_id, c))
        = ((sortByKey Track.player_id tracks).map fun t =>
            ((processTrack fps thr t).filter validateCandidate).map fun c =>
              (t.player_id, c)).flatten from rfl]
      apply List.pairwise_flatten.mpr
      constructor
      · intro ll hll
        rw [List.mem_map] at hll
        obtain ⟨t, ht, rfl⟩ := hll
        have htmem : t ∈ tracks :=
          ((sortByKey_perm Track.player_id tracks).mem_iff).mp ht
        have hpw := (processTrack_pairwise fps thr t
          (hframes t htmem)).filter validateCandidate
        refine List.pairwise_map.mpr ?_
        exact hpw.imp fun h => Or.inr ⟨rfl, h⟩
      · refine List.pairwise_map.mpr ?_
        refine hstrict.imp ?_
        intro t1 t2 h12 x hx y hy
        rw [List.mem_map] at hx hy
        obtain ⟨c1, _, rfl⟩ := hx
        obtain ⟨c2, _, rfl⟩ := hy
        exact Or.inl h12
    rw [hdet]
    refine List.pairwise_map.mpr ?_
    have h2 : ((((sortByKey Track.player_id tracks).flatMap fun t =>
        ((processTrack fps thr t).filter validateCandidate).map fun c =>
          (t.player_id, c)).enum).map Prod.snd).Pairwise
        fun a b : ℕ × Candidate =>
          a.1 < b.1 ∨ (a.1 = b.1 ∧ a.2.frame_start < b.2.frame_start) := by
      rw [List.enum_map_snd]
      exact hp
    exact (List.pairwise_map.mp h2).imp fun h => h

theorem sprint_ids_sequential_and_ordered_witness :
    ((detectSprints [⟨7, steadyRows⟩, ⟨3, steadyRows⟩] 1 10 24.5).map
        Sprint.sprint_id
      = List.range
          (detectSprints [⟨7, steadyRows⟩, ⟨3, steadyRows⟩] 1 10 24.5).length) ∧
    (detectSprints [⟨7, steadyRows⟩, ⟨3, steadyRows⟩] 1 10 24.5).Pairwise
      fun a b =>
        a.player_id < b.player_id ∨
          (a.player_id = b.player_id ∧ a.frame_start < b.frame_start) :=
  sprint_ids_sequential_and_ordered [⟨7, steadyRows⟩, ⟨3, steadyRows⟩] 1 10 24.5
    (by decide) (by decide)

/-! ## C8 -/

/-- C8: detect_sprints is a pure transformation: two runs on identical
tracking input and configuration produce identical sprint lists, every
field included. -/
theorem detect_sprints_deterministic (t1 t2 : List Track) (m1 m2 : ℕ)
    (f1 f2 th1 th2 : ℚ) (ht : t1 = t2) (hm : m1 = m2) (hf : f1 = f2)
    (hth : th1 = th2) :
    detectSprints t1 m1 f1 th1 = detectSprints t2 m2 f2 th2 := by
  rw [ht, hm, hf, hth]

theorem detect_sprints_deterministic_witness :
    detectSprints [⟨7, steadyRows⟩] 1 10 24.5
      = detectSprints [⟨7, steadyRows⟩] 1 10 24.5 :=
  detect_sprints_deterministic _ _ _ _ _ _ _ _ rfl rfl rfl rfl

/-! ## C9 -/

/-- C9: enrichment keeps exactly one record per input sprint, and a sprint
contained in no phase interval keeps all of its own fields while the
phase fields become null, the outcome flags false, and the high-value
flag false. -/
theorem enrich_retains_unmatched_sprints :
    (∀ sprints phases,
      (enrichSprintsWithPhases sprints phases).length = sprints.length) ∧
    (∀ phases (s : Sprint), matchingPhases phases s = [] →
      enrichOne phases s =
        { sprint := s
          team_in_possession_phase_type := none
          team_out_of_possession_phase_type := none
          team_in_possession_id := none
          possession_lead_to_shot := false
          possession_lead_to_goal := false
          third_end := none
          channel_end := none
          is_high_value_phase := false }) := by
  constructor
  · intro sprints phases
    simp [enrichSprintsWithPhases]
  · intro phases s h
    simp [enrichOne, h, isHighValue]

theorem enrich_retains_unmatched_sprints_witness :
    enrichOne [] sampleSprint =
      { sprint := sampleSprint
        team_in_possession_phase_type := none
        team_out_of_possession_phase_type := none
        team_in_possession_id := none
        possession_lead_to_shot := false
        possession_lead_to_goal := false
        third_end := none
        channel_end := none
        is_high_value_phase := false } :=
  enrich_retains_unmatched_sprints.2 [] sampleSprint rfl

/-! ## C10 -/

/-- C10: a sprint joined to no phase interval is never attacking, always
defensive, and its high-value and attacking-third flags are false,
whatever team id the metadata join supplies. -/
theorem unmatched_sprint_flags_defensive (phases : List PhaseInterval)
    (s : Sprint) (teamId : ℕ) (h : matchingPhases phases s = []) :
    (addSprintContextFlags (enrichOne phases s) teamId).is_attacking_sprint
        = false ∧
    (addSprintContextFlags (enrichOne phases s) teamId).is_defensive_sprint
        = true ∧
    (enrichOne phases s).is_high_value_phase = false ∧
    (addSprintContextFlags (enrichOne phases s) teamId).in_attacking_third
        = false := by
  simp [enrichOne, h, addSprintContextFlags, isHighValue]

theorem unmatched_sprint_flags_defensive_witness :
    (addSprintContextFlags (enrichOne [] sampleSprint) 7).is_attacking_sprint
        = false ∧
    (addSprintContextFlags (enrichOne [] sampleSprint) 7).is_defensive_sprint
        = true ∧
    (enrichOne [] sampleSprint).is_high_value_phase = false ∧
    (addSprintContextFlags (enrichOne [] sampleSprint) 7).in_attacking_third
        = false :=
  unmatched_sprint_flags_defensive [] sampleSprint 7 rfl

end Traits
